import Mathlib

/-!
Shallow embedding of the Chat Session & Streaming Response Engine of the
`locla_llm_manager` repository (`src/core/chat_db.py`, `src/core/database.py`),
together with theorems settling claims C1..C10 about it.

Strings are modelled as `List Char`.  Each Python regular-expression pass of
the source is modelled as an executable scanner that mirrors the semantics of
`re.sub` / `re.findall` for the concrete pattern involved (leftmost match,
continue scanning after the end of a match, one-character advance after a
failed attempt).  Scanners whose recursion consumes a computed number of
characters are written with an explicit fuel argument (initialised to the
length of the input) so that they are structurally recursive and evaluate by
kernel reduction.
-/

namespace ChatDb

/-- ASCII whitespace stripped by Python's `str.strip()` (the characters
relevant to this code base). -/
def pyWs (c : Char) : Bool :=
  c = ' ' || c = '\t' || c = '\n' || c = '\r' || c = '\x0b' || c = '\x0c'

/-- Python `str.lstrip()`. -/
def pyLStrip (s : List Char) : List Char := s.dropWhile pyWs

/-- Python `str.rstrip()`. -/
def pyRStrip (s : List Char) : List Char := (s.reverse.dropWhile pyWs).reverse

/-- Python `str.strip()`. -/
def pyStrip (s : List Char) : List Char := pyRStrip (pyLStrip s)

/-- Holds of `c` when it is not the tag-opening delimiter `<` (the character class `[^<]`). -/
def nonTagChar (c : Char) : Bool := !(c = '<')

/-- Decidable prefix test on `List Char` (Python: `s.startswith(p)` at a
scanning position). -/
def isPre : List Char → List Char → Bool
  | [], _ => true
  | _ :: _, [] => false
  | p :: ps, s :: ss => if p = s then isPre ps ss else false

/-- Index of the first position of `s` at which `c` starts (Python
`s.find(c)` as used by a non-greedy `.*?` followed by the literal `c`). -/
def firstClose (c : List Char) : List Char → Option Nat
  | [] => if isPre c [] then some 0 else none
  | x :: xs => if isPre c (x :: xs) then some 0 else (firstClose c xs).map (· + 1)

/-! ### The tag literals of `filter_think_content` / `extract_think_content` -/

def thinkO : List Char := "<think>".data
def thinkC : List Char := "</think>".data
def thinkingO : List Char := "<thinking>".data
def thinkingC : List Char := "</thinking>".data
def reasoningO : List Char := "<reasoning>".data
def reasoningC : List Char := "</reasoning>".data
def imEndBase : List Char := "<|im_end".data
def imStartBase : List Char := "<|im_start".data

/-! ### Pass 1: `re.sub(r'<tag>.*?</tag>', '', s, flags=DOTALL)`
(chat_db.py:94-101).  At each position: if the opening literal matches,
the non-greedy `.*?` runs to the earliest occurrence of the closing literal;
the whole span is removed and scanning continues after it; otherwise the
scanner advances one character. -/

def removeAllF (o c : List Char) : Nat → List Char → List Char
  | _, [] => []
  | 0, s => s
  | n + 1, x :: xs =>
    if isPre o (x :: xs) then
      match firstClose c ((x :: xs).drop o.length) with
      | some k => removeAllF o c n ((x :: xs).drop (o.length + k + c.length))
      | none => x :: removeAllF o c n xs
    else x :: removeAllF o c n xs

def removeAll (o c : List Char) (s : List Char) : List Char :=
  removeAllF o c s.length s

/-! ### Pass 2: `re.sub(r'<\|im_end\|?>+.*?</tag>', '', s, flags=DOTALL)`
(chat_db.py:105-111).  The template marker is the literal `<|im_end`,
an optional `|`, then a maximal non-empty run of `>`. -/

/-- Length consumed by the marker `base` + `\|?` + `>+` at the head of `s`,
if it matches there (`none` otherwise). -/
def markerLen? (base : List Char) (s : List Char) : Option Nat :=
  if isPre base s then
    match s.drop base.length with
    | '|' :: r =>
      if r.head? = some '>' then
        some (base.length + 1 + (r.takeWhile (fun c => c = '>')).length)
      else none
    | r =>
      if r.head? = some '>' then
        some (base.length + (r.takeWhile (fun c => c = '>')).length)
      else none
  else none

def removeTmplCloseF (c : List Char) : Nat → List Char → List Char
  | _, [] => []
  | 0, s => s
  | n + 1, x :: xs =>
    match markerLen? imEndBase (x :: xs) with
    | some m =>
      match firstClose c ((x :: xs).drop m) with
      | some k => removeTmplCloseF c n ((x :: xs).drop (m + k + c.length))
      | none => x :: removeTmplCloseF c n xs
    | none => x :: removeTmplCloseF c n xs

def removeTmplClose (c : List Char) (s : List Char) : List Char :=
  removeTmplCloseF c s.length s

/-! ### Pass 3: `re.sub(r'>[^<]*</tag>', '>', s, flags=DOTALL)`
(chat_db.py:116-122).  Since the closing literal begins with `<`, the greedy
`[^<]*` can only succeed with the maximal run of non-`<` characters. -/

/-- Length of `[^<]*</tag>` at the head of `s` (the scanner has already
consumed the leading `>`). -/
def gtMatchLen? (c : List Char) (s : List Char) : Option Nat :=
  let run := s.takeWhile nonTagChar
  if isPre c (s.drop run.length) then some (run.length + c.length) else none

def subGtF (c : List Char) : Nat → List Char → List Char
  | _, [] => []
  | 0, s => s
  | n + 1, x :: xs =>
    if x = '>' then
      match gtMatchLen? c xs with
      | some k => '>' :: subGtF c n (xs.drop k)
      | none => '>' :: subGtF c n xs
    else x :: subGtF c n xs

def subGt (c : List Char) (s : List Char) : List Char :=
  subGtF c s.length s

/-! ### Pass 4: `re.sub(r'^[^<]*</tag>', '', s, flags=DOTALL)`
(chat_db.py:125-131).  Without `re.MULTILINE` the anchor `^` only matches at
position 0, so at most one substitution happens. -/

def subStartClose (c : List Char) (s : List Char) : List Char :=
  let run := s.takeWhile nonTagChar
  if isPre c (s.drop run.length) then s.drop (run.length + c.length) else s

/-! ### Pass 5: `re.sub(r'<tag>[^<]*$', '', s, flags=DOTALL)`
(chat_db.py:134-140).  A match at position `i` needs the opening literal
there and no `<` afterwards; the greedy `[^<]*` then runs to the end of the
string (also swallowing a final newline before `$`), so the substitution
truncates the string at the leftmost such `i`. -/

def subOpenEnd (o : List Char) : List Char → List Char
  | [] => []
  | x :: xs =>
    if isPre o (x :: xs) && ((x :: xs).drop o.length).all nonTagChar then []
    else x :: subOpenEnd o xs

/-! ### Pass 6: `re.sub(r'<\|im_end\|?>+', '', s)` and the same for
`im_start` (chat_db.py:143-144). -/

def removeMarkerF (base : List Char) : Nat → List Char → List Char
  | _, [] => []
  | 0, s => s
  | n + 1, x :: xs =>
    match markerLen? base (x :: xs) with
    | some m => removeMarkerF base n ((x :: xs).drop m)
    | none => x :: removeMarkerF base n xs

def removeMarker (base : List Char) (s : List Char) : List Char :=
  removeMarkerF base s.length s

/-! ### Pass 7: `re.sub(r'\n{3,}', '\n\n', s)` (chat_db.py:147).
A maximal run of at least three newlines is replaced by two; scanning
continues after the run. -/

def isNl (c : Char) : Bool := c = '\n'

def pyCollapseF : Nat → List Char → List Char
  | _, [] => []
  | 0, s => s
  | n + 1, x :: xs =>
    if x = '\n' && 2 ≤ (xs.takeWhile isNl).length then
      '\n' :: '\n' :: pyCollapseF n (xs.dropWhile isNl)
    else x :: pyCollapseF n xs

def pyCollapse (s : List Char) : List Char := pyCollapseF s.length s

/-- Embedding of `filter_think_content` (chat_db.py:81-148): the six regular-expression
pass groups in source order, then blank-line collapsing and `strip()`. -/
def filter_think_content (text : List Char) : List Char :=
  let f1 := removeAll thinkO thinkC text
  let f2 := removeAll thinkingO thinkingC f1
  let f3 := removeAll reasoningO reasoningC f2
  let g1 := removeTmplClose thinkC f3
  let g2 := removeTmplClose thinkingC g1
  let g3 := removeTmplClose reasoningC g2
  let h1 := subGt thinkC g3
  let h2 := subGt thinkingC h1
  let h3 := subGt reasoningC h2
  let i1 := subStartClose thinkC h3
  let i2 := subStartClose thinkingC i1
  let i3 := subStartClose reasoningC i2
  let j1 := subOpenEnd thinkO i3
  let j2 := subOpenEnd thinkingO j1
  let j3 := subOpenEnd reasoningO j2
  let k1 := removeMarker imEndBase j3
  let k2 := removeMarker imStartBase k1
  pyStrip (pyCollapse k2)

/-! ### `extract_think_content` (chat_db.py:151-219): the same patterns run
as `re.findall` / `re.match` / `re.search` over the *original* text,
collecting the capture groups. -/

def findAllClosedF (o c : List Char) : Nat → List Char → List (List Char)
  | _, [] => []
  | 0, _ => []
  | n + 1, x :: xs =>
    if isPre o (x :: xs) then
      match firstClose c ((x :: xs).drop o.length) with
      | some k =>
        ((x :: xs).drop o.length).take k ::
          findAllClosedF o c n ((x :: xs).drop (o.length + k + c.length))
      | none => findAllClosedF o c n xs
    else findAllClosedF o c n xs

def findAllClosed (o c : List Char) (s : List Char) : List (List Char) :=
  findAllClosedF o c s.length s

def findAllTmplF (c : List Char) : Nat → List Char → List (List Char)
  | _, [] => []
  | 0, _ => []
  | n + 1, x :: xs =>
    match markerLen? imEndBase (x :: xs) with
    | some m =>
      match firstClose c ((x :: xs).drop m) with
      | some k =>
        ((x :: xs).drop m).take k ::
          findAllTmplF c n ((x :: xs).drop (m + k + c.length))
      | none => findAllTmplF c n xs
    | none => findAllTmplF c n xs

def findAllTmpl (c : List Char) (s : List Char) : List (List Char) :=
  findAllTmplF c s.length s

def findAllGtF (c : List Char) : Nat → List Char → List (List Char)
  | _, [] => []
  | 0, _ => []
  | n + 1, x :: xs =>
    if x = '>' then
      match gtMatchLen? c xs with
      | some k => xs.takeWhile nonTagChar :: findAllGtF c n (xs.drop k)
      | none => findAllGtF c n xs
    else findAllGtF c n xs

def findAllGt (c : List Char) (s : List Char) : List (List Char) :=
  findAllGtF c s.length s

/-- Embedding of `re.match(r'^([^<]*)</tag>', text)` (anchored at position 0). -/
def matchStartClose? (c : List Char) (s : List Char) : Option (List Char) :=
  let run := s.takeWhile nonTagChar
  if isPre c (s.drop run.length) then some run else none

/-- Embedding of `re.search(r'<tag>([^<]*)$', text)`: the leftmost position carrying the
opening literal with no `<` afterwards. -/
def searchOpenEnd? (o : List Char) : List Char → Option (List Char)
  | [] => none
  | x :: xs =>
    if isPre o (x :: xs) && ((x :: xs).drop o.length).all nonTagChar then
      some ((x :: xs).drop o.length)
    else searchOpenEnd? o xs

/-- Embedding of `extract_think_content` (chat_db.py:151-219).  Returns
`(think_content, main_content)`. -/
def extract_think_content (text : List Char) : List Char × List Char :=
  let parts :=
    findAllClosed thinkO thinkC text ++ findAllClosed thinkingO thinkingC text ++
      findAllClosed reasoningO reasoningC text ++
    findAllTmpl thinkC text ++ findAllTmpl thinkingC text ++ findAllTmpl reasoningC text ++
    findAllGt thinkC text ++ findAllGt thinkingC text ++ findAllGt reasoningC text ++
    (matchStartClose? thinkC text).toList ++ (matchStartClose? thinkingC text).toList ++
      (matchStartClose? reasoningC text).toList ++
    (searchOpenEnd? thinkO text).toList ++ (searchOpenEnd? thinkingO text).toList ++
      (searchOpenEnd? reasoningO text).toList
  let kept := (parts.map pyStrip).filter (fun p => !(p = []))
  (List.intercalate ['\n'] kept, filter_think_content text)

/-! ### `RepeatDetector` (chat_db.py:222-283) -/

structure RepeatDetector where
  min_pattern_len : Nat
  max_repeats : Nat
  detected_pattern : Option (List Char)
  first_occurrence : Nat
deriving DecidableEq, Repr

/-- The positions of `s` at which `pat` occurs.  This models the Python
counting loop `while True: found = check_text.find(pattern, pos); ...;
pos = found + 1`, which enumerates every occurrence position in ascending
order; its count is the length of this list and `first_pos` its head. -/
def occPositions (pat s : List Char) : List Nat :=
  (List.range s.length).filter (fun i => isPre pat (s.drop i))

/-- The `for pattern_len in range(...)` scan of `RepeatDetector.check`:
stop at the first pattern length whose suffix pattern reaches the repeat
threshold, returning that length and the first occurrence position. -/
def checkScan (check_text : List Char) (reps : Nat) : List Nat → Option (Nat × Nat)
  | [] => none
  | pl :: rest =>
    let pattern := check_text.drop (check_text.length - pl)
    let occ := occPositions pattern check_text
    if reps ≤ occ.length then some (pl, occ.headD 0)
    else checkScan check_text reps rest

/-- Embedding of `RepeatDetector.check` (chat_db.py:236-275).  Python mutates the
detector and returns a `bool`; here the updated detector is returned
alongside. -/
def RepeatDetector.check (d : RepeatDetector) (text : List Char) :
    Bool × RepeatDetector :=
  if text.length < d.min_pattern_len * 2 then (false, d)
  else
    let check_len := min text.length 2000
    let check_text := text.drop (text.length - check_len)
    match checkScan check_text d.max_repeats
        (List.range' d.min_pattern_len (min 200 (check_len / 2) - d.min_pattern_len)) with
    | some (pl, first_pos) =>
      (true,
        { d with
          detected_pattern := some (check_text.drop (check_text.length - pl)),
          first_occurrence := text.length - check_len + first_pos })
    | none => (false, d)

/-- Embedding of `RepeatDetector.truncate` (chat_db.py:277-283).  Note the guard: a
falsy `detected_pattern` (unset or empty) or `first_occurrence == 0`
returns the text unchanged. -/
def RepeatDetector.truncate (d : RepeatDetector) (text : List Char) : List Char :=
  match d.detected_pattern with
  | some pat =>
    if pat ≠ [] ∧ 0 < d.first_occurrence then
      pyRStrip (text.take (d.first_occurrence + pat.length))
    else text
  | none => text

/-! ### Store model for `updated_at` (database.py:268-311, 365-391).

`add_message` sets the parent conversation's `updated_at` to the *message
timestamp supplied by the caller* (database.py:383-385), while
`update_conversation` sets it to `datetime.now()` at the time of the call
(database.py:291-305).  Times are modelled as naturals supplied by the
caller/clock. -/

structure Conversation where
  title : List Char
  created_at : Nat
  updated_at : Nat
deriving DecidableEq, Repr

inductive StoreWrite where
  | addMessage (timestamp : Nat)
  | setTitle (title : List Char) (now : Nat)
  | setPersona (persona : List Char) (now : Nat)
deriving DecidableEq, Repr

/-- The time argument carried by a write. -/
def StoreWrite.time : StoreWrite → Nat
  | .addMessage t => t
  | .setTitle _ n => n
  | .setPersona _ n => n

def applyWrite (c : Conversation) : StoreWrite → Conversation
  | .addMessage t => { c with updated_at := t }
  | .setTitle ttl n => { c with title := ttl, updated_at := n }
  | .setPersona _ n => { c with updated_at := n }

/-- Title computed by `ChatManager.chat` from the first user message
(chat_db.py:491-493): `title = user_message[:15]`, plus `"..."` when the
message is longer than 15 characters. -/
def titleFor (msg : List Char) : List Char :=
  msg.take 15 ++ (if 15 < msg.length then "...".data else [])

/-- The store writes issued by one full chat turn (chat_db.py:479-637):
the user message with timestamp `t0`, the title update (only when the
conversation title was empty) at wall-clock time `tTitle`, and the
assistant message — which reuses the same `timestamp` variable `t0`
(chat_db.py:629-636). -/
def chatTurnWrites (t0 tTitle : Nat) (titleWasEmpty : Bool) (userMsg : List Char) :
    List StoreWrite :=
  [.addMessage t0] ++
    (if titleWasEmpty then [.setTitle (titleFor userMsg) tTitle] else []) ++
    [.addMessage t0]

/-! ### SQLite deletion model (database.py:52-63, 350-361).

The `messages` table declares
`FOREIGN KEY (conversation_id) REFERENCES conversations(id) ON DELETE CASCADE`,
but SQLite enforces foreign-key actions only on connections that execute
`PRAGMA foreign_keys = ON`, and `Database` never issues that pragma
(database.py:28-33 creates the connection with `sqlite3.connect` only).
Under SQLite's default (`foreign_keys = OFF`) the declared cascade is inert:
`DELETE FROM conversations WHERE id = ?` removes only the conversation row
and message rows are left in place. -/

structure DbState where
  conversations : List (List Char)
  messages : List (Nat × List Char)
deriving DecidableEq, Repr

/-- Embedding of `Database.delete_conversation` (database.py:350-361) under SQLite's
default foreign-key behaviour. -/
def delete_conversation (st : DbState) (convId : List Char) : DbState :=
  { st with conversations := st.conversations.filter (fun i => !(i = convId)) }

/-- Embedding of the `Database.add_message` row insertion (database.py:375-378): no
foreign-key check is performed on `conversation_id` with the pragma off. -/
def add_message_row (st : DbState) (msgId : Nat) (convId : List Char) : DbState :=
  { st with messages := st.messages ++ [(msgId, convId)] }

/-! ### Outbound options filtering (chat_db.py:515-526 and 992-1003).

Option values are modelled as rationals (the source uses Python ints and
floats). -/

/-- The filtering loop of `ChatManager.chat`: `num_predict == -1` and
`seed == -1` are skipped, everything else is copied over. -/
def isDroppedOption (kv : List Char × Rat) : Bool :=
  (kv.1 = "num_predict".data && kv.2 = -1) || (kv.1 = "seed".data && kv.2 = -1)

def filterOptions (opts : List (List Char × Rat)) : List (List Char × Rat) :=
  opts.filter (fun kv => !isDroppedOption kv)

/-- The `options` field of the chat request body: present only when the
filtered dictionary is non-empty (chat_db.py:525-526). -/
def chatRequestOptions (opts : List (List Char × Rat)) : Option (List (List Char × Rat)) :=
  if filterOptions opts = [] then none else some (filterOptions opts)

/-- The hardcoded `options` object of the suggestion-generator request body
(chat_db.py:996-1002). -/
def suggestionRequestOptions : List (List Char × Rat) :=
  [("temperature".data, (8 : Rat) / 10),
   ("num_predict".data, -1),
   ("num_ctx".data, 4096),
   ("top_k".data, 40),
   ("top_p".data, (9 : Rat) / 10)]


/-! ### Error messages and classification of `ChatManager` (chat_db.py). -/

def noModelMsg : List Char := "请先选择模型".data
def busyMsg : List Char := "正在生成回复，请稍候...".data
def connErrorMsg : List Char := "⚠️ 无法连接到模型引擎，请检查服务是否已启动".data
def timeoutErrorMsg : List Char := "⚠️ 请求超时，模型响应时间过长".data
def emptyResponseMsg : List Char :=
  "⚠️ 模型返回了空回复，可能原因：\n• 模型加载异常\n• 输入内容触发了安全限制\n• 请尝试重新发送或切换模型".data
def requestFailedLabel : List Char := "⚠️ 请求失败: ".data

/-- Tests whether `pat` occurs somewhere in `s` (Python `pat in s`). -/
def containsSub (pat s : List Char) : Bool := (firstClose pat s).isSome

/-- Python `str.lower()` on the ASCII range used by the source's checks. -/
def lowerStr (s : List Char) : List Char := s.map Char.toLower

/-- Embedding of `ChatManager._parse_ollama_error` (chat_db.py:694-732), with
`error_text` already extracted from the response body. -/
def parseOllamaError (model : List Char) (status : Nat) (errText : List Char) :
    List Char :=
  if status = 500 then
    if containsSub "not supported by your version".data errText ||
        containsSub "need to upgrade".data errText then
      "⚠️ 当前 Ollama 版本不支持此模型\n请升级 Ollama 到最新版本后重试".data
    else if containsSub "model not found".data (lowerStr errText) then
      "⚠️ 模型未找到\n请在设置中重新下载模型".data
    else if containsSub "out of memory".data (lowerStr errText) ||
        containsSub "oom".data (lowerStr errText) then
      "⚠️ 内存不足，无法加载模型\n请尝试使用更小的模型或关闭其他程序".data
    else if containsSub "terminated".data (lowerStr errText) then
      "⚠️ 模型运行异常终止\n可能是内存不足或模型文件损坏，请尝试重新下载".data
    else
      "⚠️ 模型运行错误\n请尝试重启模型引擎或重新下载模型".data
  else if status = 404 then
    "⚠️ 模型 ".data ++ model ++ " 不存在\n请在设置中下载此模型".data
  else if status = 400 then
    "⚠️ 请求参数错误\n请检查输入内容是否正常".data
  else if status = 503 then
    "⚠️ 模型引擎暂时不可用\n请稍后重试或重启服务".data
  else if status = 408 then
    "⚠️ 请求超时\n模型响应时间过长，请重试".data
  else
    "⚠️ 服务器错误 (错误码: ".data ++ (toString status).data ++
      ")\n请检查模型引擎状态".data

/-- Embedding of `ChatManager._translate_error` (chat_db.py:734-749): first matching
translation wins (Python dict iteration is in insertion order). -/
def translateError (e : List Char) : List Char :=
  if containsSub (lowerStr "Connection refused".data) (lowerStr e) then
    "连接被拒绝，模型引擎可能未启动".data
  else if containsSub (lowerStr "Connection reset".data) (lowerStr e) then
    "连接被重置，请检查网络".data
  else if containsSub (lowerStr "timed out".data) (lowerStr e) then
    "连接超时".data
  else if containsSub (lowerStr "No such file".data) (lowerStr e) then
    "文件不存在".data
  else if containsSub (lowerStr "Permission denied".data) (lowerStr e) then
    "权限不足".data
  else if containsSub (lowerStr "out of memory".data) (lowerStr e) then
    "内存不足".data
  else e

/-! ### `ChatManager.chat` — the streaming generation path (chat_db.py:456-692).

The embedding covers the state relevant to the claims:
the busy/no-model guards, the persisted user message, title-on-first-message,
the classified error saves via `_save_error_response`, the per-chunk stream
loop with cooperative cancellation and repeat detection, the empty-response
check, the assistant save, the generic `except Exception` branch and the
`finally` reset of `is_generating`.  The HTTP layer is an oracle
(`HttpOutcome`): each constructor is one way the `requests` calls and the
line iterator can behave.  Stream lines are given as their already-extracted
chunk contents (`data["message"]["content"]`); an unparsable or content-free
line is the empty chunk, which the source skips (`if chunk:`). -/

structure Engine where
  currentModel : Option (List Char)
  isGenerating : Bool
  titleWasEmpty : Bool
  isRoleplay : Bool
deriving DecidableEq, Repr

inductive HttpOutcome where
  /-- Case: `requests.exceptions.ConnectionError` raised by the POST. -/
  | connError
  /-- Case: `requests.exceptions.Timeout` raised by the POST. -/
  | timeout
  /-- the POST returned with `status_code ≠ 200`. -/
  | badStatus (status : Nat) (errText : List Char)
  /-- a streaming 200 response delivering `lines`; `cancelFrom = some k`
  means the user's stop flag reads true from the `k`-th loop iteration on. -/
  | stream (lines : List (List Char)) (cancelFrom : Option Nat)
  /-- any other exception raised inside the `try` block after the user
  message was persisted (caught by `except Exception` at chat_db.py:686). -/
  | raised (msg : List Char)
deriving DecidableEq, Repr

structure LoopState where
  full : List Char
  det : RepeatDetector
  shouldStop : Bool
  userStopped : Bool
deriving DecidableEq, Repr

def initLoopState : LoopState :=
  { full := [], det := ⟨20, 3, none, 0⟩, shouldStop := false, userStopped := false }

def cancelHit (cancelFrom : Option Nat) (i : Nat) : Bool :=
  match cancelFrom with
  | some k => k ≤ i
  | none => false

/-- The `for line in response.iter_lines()` loop (chat_db.py:574-604):
check the stop flag, then the repeat-detector break flag, then accumulate
the chunk and run the detector, truncating on a hit. -/
def chatLoop (cancelFrom : Option Nat) : List (List Char) → Nat → LoopState → LoopState
  | [], _, st => st
  | line :: rest, i, st =>
    if cancelHit cancelFrom i then { st with userStopped := true }
    else if st.shouldStop then st
    else if line = [] then chatLoop cancelFrom rest (i + 1) st
    else
      let full := st.full ++ line
      let r := st.det.check full
      if r.1 then
        chatLoop cancelFrom rest (i + 1)
          { full := r.2.truncate full, det := r.2, shouldStop := true, userStopped := false }
      else
        chatLoop cancelFrom rest (i + 1)
          { full := full, det := r.2, shouldStop := false, userStopped := false }

structure ChatResult where
  /-- the string returned by `chat`. -/
  returned : List Char
  /-- the content persisted as the assistant turn
  (via `add_message(role='assistant', ...)` or `_save_error_response`),
  `none` when no assistant row is written. -/
  savedAssistant : Option (List Char)
  /-- whether the user message was persisted. -/
  savedUserMessage : Bool
  /-- the title written by the title-on-first-message step, if any. -/
  titleSet : Option (List Char)
  /-- the value of `self.is_generating` when `chat` returns. -/
  isGeneratingAfter : Bool
deriving DecidableEq, Repr

/-- The body of the `try` block of `ChatManager.chat` for the streaming
call path (chat_db.py:473-689); `isGeneratingAfter` is `true` here because
the flag is still set inside the `try`. -/
def chatTryBody (e : Engine) (userMessage : List Char) (outcome : HttpOutcome) :
    ChatResult :=
  let titleSet := if e.titleWasEmpty then some (titleFor userMessage) else none
  match outcome with
  | .connError =>
    ⟨connErrorMsg, some connErrorMsg, true, titleSet, true⟩
  | .timeout =>
    ⟨timeoutErrorMsg, some timeoutErrorMsg, true, titleSet, true⟩
  | .badStatus status err =>
    let m := parseOllamaError (e.currentModel.getD []) status err
    ⟨m, some m, true, titleSet, true⟩
  | .raised msg =>
    ⟨requestFailedLabel ++ translateError msg, none, true, titleSet, true⟩
  | .stream lines cancelFrom =>
    let st := chatLoop cancelFrom lines 0 initLoopState
    if st.userStopped then
      ⟨st.full, none, true, titleSet, true⟩
    else if pyStrip st.full = [] then
      ⟨emptyResponseMsg, some emptyResponseMsg, true, titleSet, true⟩
    else
      let contentToSave := if e.isRoleplay then filter_think_content st.full else st.full
      ⟨st.full, some contentToSave, true, titleSet, true⟩

/-- Embedding of `ChatManager.chat` (chat_db.py:456-692): the busy and missing-model
guards return before `is_generating` is touched; otherwise the `try` body
runs and the `finally` clause resets `is_generating` to `False`. -/
def ChatManager.chat (e : Engine) (userMessage : List Char) (outcome : HttpOutcome) :
    ChatResult :=
  if e.currentModel = none then
    ⟨noModelMsg, none, false, none, e.isGenerating⟩
  else if e.isGenerating then
    ⟨busyMsg, none, false, none, e.isGenerating⟩
  else
    let r := chatTryBody e userMessage outcome
    { r with isGeneratingAfter := false }

/-! ### Well-formed reasoning-tagged inputs (the quantifier domain of the
extraction claims).

A text "containing only fully-closed reasoning tags" is an alternation of
visible runs and closed tag spans; visible runs and tag bodies contain no
tag delimiter `<`. -/

inductive Seg where
  | vis : List Char → Seg
  | think : List Char → Seg
  | thinking : List Char → Seg
  | reasoning : List Char → Seg
deriving DecidableEq, Repr

/-- The inner text of a segment (visible run or tag body). -/
def Seg.txt : Seg → List Char
  | .vis s => s
  | .think b => b
  | .thinking b => b
  | .reasoning b => b

def Seg.render : Seg → List Char
  | .vis s => s
  | .think b => thinkO ++ b ++ thinkC
  | .thinking b => thinkingO ++ b ++ thinkingC
  | .reasoning b => reasoningO ++ b ++ reasoningC

def Seg.isVis : Seg → Bool
  | .vis _ => true
  | _ => false

def Seg.isThink : Seg → Bool
  | .think _ => true
  | _ => false

def Seg.isThinking : Seg → Bool
  | .thinking _ => true
  | _ => false

/-- No `<` in a character list. -/
def NoLt (s : List Char) : Prop := ∀ c ∈ s, c ≠ '<'

instance NoLt.dec (s : List Char) : Decidable (NoLt s) :=
  List.decidableBAll (fun c => c ≠ '<') s

/-- Well-formedness of a segment list. -/
def SegsOk (l : List Seg) : Prop := ∀ g ∈ l, NoLt g.txt

instance SegsOk.dec (l : List Seg) : Decidable (SegsOk l) :=
  List.decidableBAll (fun g : Seg => NoLt g.txt) l

def renderAll (l : List Seg) : List Char := (l.map Seg.render).flatten

/-- The concatenation of the visible runs, in order. -/
def visConcat (l : List Seg) : List Char := renderAll (l.filter Seg.isVis)


/-! ## Concrete inputs used by the claims -/

/-- The accumulated text of the C1 streaming scenario:
`"<thi" + "nk>se" + "cret</thi" + "nk>hello"`. -/
def c1Text : List Char := ("<thi" ++ "nk>se" ++ "cret</thi" ++ "nk>hello").data

/-- The C9 scenario's first user message. -/
def c9Msg : List Char :=
  "How do I reverse a list efficiently in most languages, and why?".data

/-- A fresh detector with the constructor defaults used by the stream loop
(chat_db.py:570): `min_pattern_len=20, max_repeats=3`. -/
def freshDetector : RepeatDetector :=
  { min_pattern_len := 20, max_repeats := 3, detected_pattern := none,
    first_occurrence := 0 }

/-- A 25-character pattern repeated 4 times, all one letter: the flagged
suffix pattern then first occurs at offset 0. -/
def aaaText : List Char := List.replicate 100 'a'

/-! ## C1 — counterexample part.

The claim's scenario asserts that the extracted reasoning text equals
`"secret"`.  In the source, the closed-tag pattern `<think>(.*?)</think>`
*and* the stray-close pattern `>([^<]*)</think>` both capture the same
segment of the original text (chat_db.py:162-190), so `think_content` is
`"secret\nsecret"`. -/

/-- C1 fails as stated: for the scenario's accumulated text the reasoning
component of `extract_think_content` is `"secret\nsecret"`, not `"secret"`
(the visible component is indeed `"hello"`). -/
theorem C1_scenario_counterexample :
    (extract_think_content c1Text).1 = ("secret" ++ "\n" ++ "secret").data ∧
    ¬ (extract_think_content c1Text).1 = "secret".data ∧
    (extract_think_content c1Text).2 = "hello".data := by
  refine ⟨by decide, by decide, by decide⟩

/-! ## C3 — counterexample part.

`truncate` only cuts when `first_occurrence > 0` (chat_db.py:279); when the
flagged pattern's first occurrence is at offset 0 the text is returned
unchanged, contradicting the unconditional cut the claim states. -/

/-- C3 fails as stated: for `'a' * 100` (a 25-character pattern repeated
4 times) `check` returns true, but `truncate` returns the text unchanged
instead of cutting immediately after the first occurrence's end. -/
theorem C3_truncate_counterexample :
    (RepeatDetector.check freshDetector aaaText).1 = true ∧
    RepeatDetector.truncate (RepeatDetector.check freshDetector aaaText).2 aaaText
      = aaaText ∧
    ¬ RepeatDetector.truncate (RepeatDetector.check freshDetector aaaText).2 aaaText
        = pyRStrip (aaaText.take
            ((RepeatDetector.check freshDetector aaaText).2.first_occurrence +
             ((RepeatDetector.check freshDetector aaaText).2.detected_pattern.getD []).length)) := by
  refine ⟨by decide, by decide, by decide⟩

/-! ## C4 — counterexample part.

`Database.add_message` sets the conversation's `updated_at` to the message
timestamp supplied by the caller, and `ChatManager.chat` passes the same
turn-start `timestamp` for the assistant message it saves *after* the title
update (whose `updated_at` is the later wall-clock time of the update call),
so `updated_at` moves backward within one chat turn. -/

def c4Conv : Conversation := { title := [], created_at := 0, updated_at := 0 }

/-- C4 fails as stated: with the user message at time 1 and the title
update at time 2, the assistant save resets `updated_at` from 2 back to 1. -/
theorem C4_counterexample :
    (((chatTurnWrites 1 2 true "hi".data).take 2).foldl applyWrite c4Conv).updated_at = 2 ∧
    ((chatTurnWrites 1 2 true "hi".data).foldl applyWrite c4Conv).updated_at = 1 ∧
    ¬ (((chatTurnWrites 1 2 true "hi".data).take 2).foldl applyWrite c4Conv).updated_at ≤
        ((chatTurnWrites 1 2 true "hi".data).foldl applyWrite c4Conv).updated_at := by
  decide

/-- C4, amended: `updated_at` always equals the time argument of the most
recent write, `created_at` never changes, and `updated_at ≥ created_at`
holds provided every write carries a time ≥ `created_at`; the final
`updated_at` of a chat turn is the turn-start timestamp `t0` (so it is not
monotone when the title update happened later than `t0`). -/
theorem applyWrite_created (c : Conversation) (w : StoreWrite) :
    (applyWrite c w).created_at = c.created_at := by
  cases w <;> rfl

theorem applyWrite_updated (c : Conversation) (w : StoreWrite) :
    (applyWrite c w).updated_at = w.time := by
  cases w <;> rfl

theorem foldl_applyWrite_created (ws : List StoreWrite) (c : Conversation) :
    (ws.foldl applyWrite c).created_at = c.created_at := by
  induction ws generalizing c with
  | nil => rfl
  | cons w ws ih => rw [List.foldl_cons, ih, applyWrite_created]

theorem C4_amended_updated_at (c : Conversation) (ws : List StoreWrite)
    (h0 : c.created_at ≤ c.updated_at)
    (hw : ∀ w ∈ ws, c.created_at ≤ w.time) :
    c.created_at ≤ (ws.foldl applyWrite c).updated_at ∧
    (ws.foldl applyWrite c).created_at = c.created_at ∧
    (∀ w : StoreWrite, (applyWrite c w).updated_at = w.time) ∧
    (∀ t0 t1 : Nat, ∀ empt : Bool, ∀ msg : List Char,
      ((chatTurnWrites t0 t1 empt msg).foldl applyWrite c).updated_at = t0) := by
  refine ⟨?_, foldl_applyWrite_created ws c, applyWrite_updated c, ?_⟩
  · induction ws generalizing c with
    | nil => exact h0
    | cons w ws ih =>
      have hwt : c.created_at ≤ w.time := hw w (List.mem_cons_self w ws)
      rw [List.foldl_cons]
      have := ih (applyWrite c w)
        (by rw [applyWrite_created, applyWrite_updated]; exact hwt)
        (fun v hv => by
          rw [applyWrite_created]; exact hw v (List.mem_cons_of_mem w hv))
      rwa [applyWrite_created] at this
  · intro t0 t1 empt msg
    cases empt <;> simp [chatTurnWrites, applyWrite]

/-! ## C5 — the claim is right, the code is wrong.

The DDL declares `ON DELETE CASCADE` and `delete_conversation`'s docstring
says "删除对话（级联删除消息）" (delete the conversation, cascade-deleting
its messages), but no connection ever runs `PRAGMA foreign_keys = ON`, so
under SQLite's default the cascade (and the foreign-key check itself) is
never enforced: deleting a conversation orphans its messages. -/

def c5Before : DbState :=
  { conversations := ["c1".data], messages := [(1, "c1".data)] }

/-- Evaluating the code at the failing input: after
`delete_conversation("c1")` on a store holding conversation `c1` with one
message, the message row is still present while its parent conversation is
gone — the cascade the claim (and the code's own docstring) promises does
not happen, and referential integrity is violated. -/
theorem C5_cascade_code_bug :
    (1, "c1".data) ∈ (delete_conversation c5Before "c1".data).messages ∧
    ¬ "c1".data ∈ (delete_conversation c5Before "c1".data).conversations ∧
    (delete_conversation c5Before "c1".data).messages = c5Before.messages := by
  decide

/-! ## C6 — counterexample and amended behaviour. -/

def c6Engine : Engine :=
  { currentModel := some "m".data, isGenerating := false,
    titleWasEmpty := false, isRoleplay := false }

/-- C6 fails as stated: a generic exception inside the `try` block
(chat_db.py:686-689) builds an error string and returns it, but — unlike
the connection-error / timeout / bad-status / empty-response paths — never
calls `_save_error_response`, so no assistant-turn message is persisted for
this non-`Cancelled`, non-`Degenerate` failure. -/
theorem C6_exception_counterexample :
    (ChatManager.chat c6Engine "hi".data (.raised "boom".data)).savedAssistant = none ∧
    (ChatManager.chat c6Engine "hi".data (.raised "boom".data)).returned
      = requestFailedLabel ++ "boom".data ∧
    (ChatManager.chat c6Engine "hi".data (.raised "boom".data)).savedUserMessage = true := by
  refine ⟨by decide, by decide, by decide⟩

/-- C6, amended: connection errors, timeouts, non-200 statuses (and the
empty-response case, see C7) persist a human-readable assistant message;
user cancellation persists nothing beyond the user message; but a generic
unexpected exception only returns an error string without persisting it. -/
theorem C6_amended_error_persistence (e : Engine) (msg errText : List Char)
    (status : Nat) (line : List Char) (lines : List (List Char)) (mdl : List Char)
    (hm : e.currentModel = some mdl) (hg : e.isGenerating = false) :
    (ChatManager.chat e msg .connError).savedAssistant = some connErrorMsg ∧
    (ChatManager.chat e msg .timeout).savedAssistant = some timeoutErrorMsg ∧
    (ChatManager.chat e msg (.badStatus status errText)).savedAssistant
      = some (parseOllamaError mdl status errText) ∧
    (ChatManager.chat e msg (.stream (line :: lines) (some 0))).savedAssistant = none ∧
    (ChatManager.chat e msg (.raised errText)).savedAssistant = none := by
  refine ⟨?_, ?_, ?_, ?_, ?_⟩ <;>
    simp [ChatManager.chat, chatTryBody, hm, hg, chatLoop, cancelHit]

/-- Witness for `C6_amended_error_persistence`. -/
theorem C6_amended_witness :
    (ChatManager.chat c6Engine "q".data .connError).savedAssistant = some connErrorMsg ∧
    (ChatManager.chat c6Engine "q".data .timeout).savedAssistant = some timeoutErrorMsg ∧
    (ChatManager.chat c6Engine "q".data (.badStatus 404 "err".data)).savedAssistant
      = some (parseOllamaError "m".data 404 "err".data) ∧
    (ChatManager.chat c6Engine "q".data (.stream (["x".data].head! :: []) (some 0))).savedAssistant = none ∧
    (ChatManager.chat c6Engine "q".data (.raised "err".data)).savedAssistant = none :=
  C6_amended_error_persistence c6Engine "q".data "err".data 404 "x".data [] "m".data
    (by decide) (by decide)

/-! ## C7 — counterexample and amended behaviour. -/

def c7Engine : Engine :=
  { currentModel := some "m".data, isGenerating := false,
    titleWasEmpty := false, isRoleplay := true }

def c7Lines : List (List Char) := ["<think>x</think>".data]

/-- C7 fails as stated: the empty-response check tests the *raw* accumulated
text (`full_response.strip()`, chat_db.py:614), not the post-extraction
visible text.  A stream consisting only of a reasoning span has zero
visible content, yet the turn is not treated as failed: for a roleplay
persona the think-filtered — i.e. blank — content is persisted as the
assistant turn. -/
theorem C7_blank_persist_counterexample :
    (ChatManager.chat c7Engine "hi".data (.stream c7Lines none)).savedAssistant = some [] ∧
    filter_think_content "<think>x</think>".data = [] ∧
    ¬ (ChatManager.chat c7Engine "hi".data (.stream c7Lines none)).savedAssistant
        = some emptyResponseMsg := by
  refine ⟨by decide, by decide, by decide⟩

/-- C7, amended: the guard fires on raw emptiness — if the stream loop ends
with an accumulated text that strips to empty and the user did not cancel,
the dedicated empty-response error is persisted as the assistant turn and
returned. -/
theorem C7_amended_empty_guard (e : Engine) (msg : List Char)
    (lines : List (List Char)) (cancelFrom : Option Nat) (mdl : List Char)
    (hm : e.currentModel = some mdl) (hg : e.isGenerating = false)
    (hstop : (chatLoop cancelFrom lines 0 initLoopState).userStopped = false)
    (hempty : pyStrip (chatLoop cancelFrom lines 0 initLoopState).full = []) :
    (ChatManager.chat e msg (.stream lines cancelFrom)).savedAssistant
      = some emptyResponseMsg ∧
    (ChatManager.chat e msg (.stream lines cancelFrom)).returned = emptyResponseMsg := by
  constructor <;> simp [ChatManager.chat, chatTryBody, hm, hg, hstop, hempty]

/-- Witness for `C7_amended_empty_guard` (an empty stream). -/
theorem C7_amended_witness :
    (ChatManager.chat c6Engine "q".data (.stream [] none)).savedAssistant
      = some emptyResponseMsg ∧
    (ChatManager.chat c6Engine "q".data (.stream [] none)).returned = emptyResponseMsg :=
  C7_amended_empty_guard c6Engine "q".data [] none "m".data (by decide) (by decide)
    (by decide) (by decide)

/-! ## C8 — counterexample and amended behaviour. -/

/-- C8 fails as stated: the suggestion-generator request body hardcodes
`num_predict: -1` in its `options` object (chat_db.py:996-1002), sending the
sentinel literally instead of omitting it. -/
theorem C8_counterexample :
    ("num_predict".data, (-1 : Rat)) ∈ suggestionRequestOptions := by
  decide

/-- C8, amended: the chat call's option filter omits `num_predict = -1` and
`seed = -1` and passes every other entry through verbatim, but the
suggestion call's fixed options include `num_predict = -1` literally. -/
theorem C8_amended_options (opts : List (List Char × Rat)) :
    (∀ kv ∈ filterOptions opts,
      ¬ (kv.1 = "num_predict".data ∧ kv.2 = -1) ∧
      ¬ (kv.1 = "seed".data ∧ kv.2 = -1)) ∧
    (∀ kv ∈ opts, isDroppedOption kv = false → kv ∈ filterOptions opts) ∧
    (∀ payload, chatRequestOptions opts = some payload →
      ∀ kv ∈ payload,
        ¬ (kv.1 = "num_predict".data ∧ kv.2 = -1) ∧
        ¬ (kv.1 = "seed".data ∧ kv.2 = -1)) ∧
    ("num_predict".data, (-1 : Rat)) ∈ suggestionRequestOptions := by
  have hchar : ∀ kv ∈ filterOptions opts,
      ¬ (kv.1 = "num_predict".data ∧ kv.2 = -1) ∧
      ¬ (kv.1 = "seed".data ∧ kv.2 = -1) := by
    intro kv hkv
    have h := (List.mem_filter.mp hkv).2
    simp only [isDroppedOption, Bool.not_eq_true', Bool.or_eq_false_iff,
      Bool.and_eq_false_iff, decide_eq_false_iff_not] at h
    constructor
    · rintro ⟨h1, h2⟩
      rcases h.1 with h' | h' <;> exact h' (by simp [h1, h2])
    · rintro ⟨h1, h2⟩
      rcases h.2 with h' | h' <;> exact h' (by simp [h1, h2])
  refine ⟨hchar, ?_, ?_, by decide⟩
  · intro kv hkv hdrop
    exact List.mem_filter.mpr ⟨hkv, by simp [hdrop]⟩
  · intro payload hp kv hkv
    have : payload = filterOptions opts := by
      by_cases h : filterOptions opts = [] <;>
        simp [chatRequestOptions, h] at hp
      · exact hp.symm
    exact hchar kv (this ▸ hkv)

/-- Witness for `C8_amended_options`. -/
theorem C8_amended_witness :
    (∀ kv ∈ filterOptions [(("seed".data : List Char), (-1 : Rat))],
      ¬ (kv.1 = "num_predict".data ∧ kv.2 = -1) ∧
      ¬ (kv.1 = "seed".data ∧ kv.2 = -1)) ∧
    (∀ kv ∈ [(("seed".data : List Char), (-1 : Rat))],
      isDroppedOption kv = false → kv ∈ filterOptions [(("seed".data : List Char), (-1 : Rat))]) ∧
    (∀ payload, chatRequestOptions [(("seed".data : List Char), (-1 : Rat))] = some payload →
      ∀ kv ∈ payload,
        ¬ (kv.1 = "num_predict".data ∧ kv.2 = -1) ∧
        ¬ (kv.1 = "seed".data ∧ kv.2 = -1)) ∧
    ("num_predict".data, (-1 : Rat)) ∈ suggestionRequestOptions :=
  C8_amended_options [(("seed".data : List Char), (-1 : Rat))]

/-! ## C9 — counterexample and amended behaviour. -/

/-- C9 fails as stated: the first 15 characters of the scenario message are
`"How do I revers"` (ending in `s`), so the computed title is
`"How do I revers..."`, not the claim's `"How do I rever..."` (which has
only 14 characters before the ellipsis). -/
theorem C9_scenario_counterexample :
    titleFor c9Msg = "How do I revers...".data ∧
    ¬ titleFor c9Msg = "How do I rever...".data := by
  refine ⟨by decide, by decide⟩

/-- C9, amended: when the conversation's title is empty, one chat turn sets
it to the first 15 characters of the user message, with an ellipsis
appended exactly when the message is longer than 15 characters; for the
scenario message the resulting title is `"How do I revers..."`. -/
theorem C9_amended_title (e : Engine) (msg : List Char) (outcome : HttpOutcome)
    (mdl : List Char) (hm : e.currentModel = some mdl) (hg : e.isGenerating = false) :
    (e.titleWasEmpty = true →
      (ChatManager.chat e msg outcome).titleSet = some (titleFor msg)) ∧
    (e.titleWasEmpty = false →
      (ChatManager.chat e msg outcome).titleSet = none) ∧
    (15 < msg.length → titleFor msg = msg.take 15 ++ "...".data) ∧
    (msg.length ≤ 15 → titleFor msg = msg) ∧
    titleFor c9Msg = "How do I revers...".data := by
  have hset : (ChatManager.chat e msg outcome).titleSet
      = if e.titleWasEmpty then some (titleFor msg) else none := by
    cases outcome <;>
      simp [ChatManager.chat, chatTryBody, hm, hg, apply_ite ChatResult.titleSet]
  refine ⟨?_, ?_, ?_, ?_, by decide⟩
  · intro ht; rw [hset, ht, if_pos rfl]
  · intro ht; rw [hset, ht]; rfl
  · intro h; simp [titleFor, h]
  · intro h
    simp [titleFor, Nat.not_lt.mpr h, List.take_of_length_le h]

/-- Witness for `C9_amended_title`. -/
theorem C9_amended_witness :
    (c6Engine.titleWasEmpty = true →
      (ChatManager.chat c6Engine c9Msg .timeout).titleSet = some (titleFor c9Msg)) ∧
    (c6Engine.titleWasEmpty = false →
      (ChatManager.chat c6Engine c9Msg .timeout).titleSet = none) ∧
    (15 < c9Msg.length → titleFor c9Msg = c9Msg.take 15 ++ "...".data) ∧
    (c9Msg.length ≤ 15 → titleFor c9Msg = c9Msg) ∧
    titleFor c9Msg = "How do I revers...".data :=
  C9_amended_title c6Engine c9Msg .timeout "m".data (by decide) (by decide)

/-! ## C10 — confirmed. -/

/-- C10: on every exit path of the generation call proper (every outcome of
the request, including raised exceptions, cancellation and classified
errors), the `finally` clause (chat_db.py:691-692) has reset
`is_generating` to `False` when `chat` returns. -/
theorem C10_is_generating_reset (e : Engine) (msg : List Char)
    (outcome : HttpOutcome) (mdl : List Char)
    (hm : e.currentModel = some mdl) (hg : e.isGenerating = false) :
    (ChatManager.chat e msg outcome).isGeneratingAfter = false := by
  simp [ChatManager.chat, hm, hg]

/-- Witness for `C10_is_generating_reset`. -/
theorem C10_witness :
    (ChatManager.chat c6Engine "q".data (.raised "boom".data)).isGeneratingAfter = false :=
  C10_is_generating_reset c6Engine "q".data (.raised "boom".data) "m".data
    (by decide) (by decide)

/-- Witness for `C4_amended_updated_at`. -/
theorem C4_amended_witness :
    c4Conv.created_at ≤ ([StoreWrite.addMessage 3].foldl applyWrite c4Conv).updated_at ∧
    ([StoreWrite.addMessage 3].foldl applyWrite c4Conv).created_at = c4Conv.created_at ∧
    (∀ w : StoreWrite, (applyWrite c4Conv w).updated_at = w.time) ∧
    (∀ t0 t1 : Nat, ∀ empt : Bool, ∀ msg : List Char,
      ((chatTurnWrites t0 t1 empt msg).foldl applyWrite c4Conv).updated_at = t0) :=
  C4_amended_updated_at c4Conv [StoreWrite.addMessage 3] (by decide)
    (by intro w hw; simp at hw; subst hw; decide)

/-! ## C3 — amended behaviour. -/

theorem isPre_self_append (a t : List Char) : isPre a (a ++ t) = true := by
  induction a with
  | nil => rfl
  | cons x xs ih => simp [isPre, ih]

/-- Dropping a multiple-of-25 offset plus 5 into a 4-fold repetition of a
25-character list reaches a tail starting with `p.drop 5`. -/
theorem drop_p4 (p : List Char) (hp : p.length = 25) :
    List.drop 5 (p ++ (p ++ (p ++ p))) = p.drop 5 ++ (p ++ (p ++ p)) ∧
    List.drop 30 (p ++ (p ++ (p ++ p))) = p.drop 5 ++ (p ++ p) ∧
    List.drop 55 (p ++ (p ++ (p ++ p))) = p.drop 5 ++ p ∧
    List.drop 80 (p ++ (p ++ (p ++ p))) = p.drop 5 := by
  refine ⟨?_, ?_, ?_, ?_⟩ <;>
    simp [List.drop_append_eq_append_drop, hp,
      List.drop_eq_nil_of_le, List.drop_eq_nil_iff]

/-- For any 25-character `p`, the 20-character suffix pattern of
`p ++ p ++ p ++ p` occurs at offsets 5, 30 and 55, so the detector's count
reaches the threshold 3. -/
theorem occ_count_p4 (p : List Char) (hp : p.length = 25) :
    3 ≤ (occPositions (p.drop 5) (p ++ (p ++ (p ++ p)))).length := by
  obtain ⟨d5, d30, d55, -⟩ := drop_p4 p hp
  have hlen : (p ++ (p ++ (p ++ p))).length = 100 := by simp [hp]
  have h5 : isPre (p.drop 5) (List.drop 5 (p ++ (p ++ (p ++ p)))) = true := by
    rw [d5]; exact isPre_self_append _ _
  have h30 : isPre (p.drop 5) (List.drop 30 (p ++ (p ++ (p ++ p)))) = true := by
    rw [d30]; exact isPre_self_append _ _
  have h55 : isPre (p.drop 5) (List.drop 55 (p ++ (p ++ (p ++ p)))) = true := by
    rw [d55]; exact isPre_self_append _ _
  have hdec : List.range' 0 100 =
      List.range' 0 5 ++ [5] ++ List.range' 6 24 ++ [30] ++
        List.range' 31 24 ++ [55] ++ List.range' 56 44 := by rfl
  rw [occPositions, hlen, List.range_eq_range', hdec]
  simp only [List.filter_append, List.length_append, List.filter_cons,
    List.filter_nil, h5, h30, h55, if_true, List.length_cons, List.length_nil]
  omega

/-- For every 25-character pattern, `check` flags its 4-fold repetition:
the first candidate length 20 already reaches 3 occurrences. -/
theorem check_p4_true (p : List Char) (hp : p.length = 25) :
    (RepeatDetector.check freshDetector (p ++ (p ++ (p ++ p)))).1 = true := by
  obtain ⟨-, -, -, d80⟩ := drop_p4 p hp
  have hlen : (p ++ (p ++ (p ++ p))).length = 100 := by simp [hp]
  have hocc := occ_count_p4 p hp
  rw [RepeatDetector.check]
  simp only [hlen, freshDetector]
  norm_num
  have hrange : List.range' 20 30 = 20 :: List.range' 21 29 := by rfl
  rw [hrange, checkScan]
  simp only [hlen]
  norm_num
  rw [d80, if_pos hocc]

/-- C3, amended: for every 25-character pattern repeated 4 times, `check`
(with `min_pattern_len = 20`, `max_repeats = 3`) returns true; `truncate`
cuts immediately after the end of the flagged pattern's first occurrence and
trims trailing whitespace *provided that occurrence starts after position
0*; when nothing was flagged, or the flagged first occurrence starts at
position 0, `truncate` returns the text unchanged. -/
theorem C3_amended_detector (p : List Char) (hp : p.length = 25) :
    (RepeatDetector.check freshDetector (p ++ (p ++ (p ++ p)))).1 = true ∧
    (∀ d : RepeatDetector, ∀ text pat : List Char,
      d.detected_pattern = some pat → pat ≠ [] → 0 < d.first_occurrence →
      d.truncate text = pyRStrip (text.take (d.first_occurrence + pat.length))) ∧
    (∀ d : RepeatDetector, ∀ text : List Char,
      d.detected_pattern = none → d.truncate text = text) ∧
    (∀ d : RepeatDetector, ∀ text : List Char,
      d.first_occurrence = 0 → d.truncate text = text) := by
  refine ⟨check_p4_true p hp, ?_, ?_, ?_⟩
  · intro d text pat hd hpat hfo
    simp [RepeatDetector.truncate, hd, hpat, hfo]
  · intro d text hd
    simp [RepeatDetector.truncate, hd]
  · intro d text h0
    rw [RepeatDetector.truncate]
    cases hd : d.detected_pattern with
    | none => rfl
    | some pat => simp [h0]
  
/-- Witness for `C3_amended_detector`. -/
theorem C3_amended_witness :
    (RepeatDetector.check freshDetector
      ("abcdefghijklmnopqrstuvwxy".data ++ ("abcdefghijklmnopqrstuvwxy".data ++
       ("abcdefghijklmnopqrstuvwxy".data ++ "abcdefghijklmnopqrstuvwxy".data)))).1 = true ∧
    (∀ d : RepeatDetector, ∀ text pat : List Char,
      d.detected_pattern = some pat → pat ≠ [] → 0 < d.first_occurrence →
      d.truncate text = pyRStrip (text.take (d.first_occurrence + pat.length))) ∧
    (∀ d : RepeatDetector, ∀ text : List Char,
      d.detected_pattern = none → d.truncate text = text) ∧
    (∀ d : RepeatDetector, ∀ text : List Char,
      d.first_occurrence = 0 → d.truncate text = text) :=
  C3_amended_detector "abcdefghijklmnopqrstuvwxy".data (by decide)

/-! ## Lemmas on the scanning primitives -/

theorem isPre_head_ne {a b : Char} (ps ss : List Char) (h : a ≠ b) :
    isPre (a :: ps) (b :: ss) = false := by
  simp [isPre, h]

theorem isPre_nil_right {a : Char} (ps : List Char) : isPre (a :: ps) [] = false := rfl

theorem isPre_append_left (p s t : List Char) (h : p.length ≤ s.length) :
    isPre p (s ++ t) = isPre p s := by
  induction p generalizing s with
  | nil => rfl
  | cons a ps ih =>
    cases s with
    | nil => simp at h
    | cons b ss =>
      simp only [List.cons_append, isPre]
      split
      · exact ih ss (by simpa using h)
      · rfl

/-- First occurrence of a close tag starting with `<` right after a
`<`-free body. -/
theorem firstClose_body (c b t : List Char) (hc : c.head? = some '<')
    (hb : NoLt b) : firstClose c (b ++ (c ++ t)) = some b.length := by
  obtain ⟨c', rfl⟩ : ∃ c', c = '<' :: c' := by
    cases c with
    | nil => simp at hc
    | cons a c' => simp at hc; exact ⟨c', by rw [hc]⟩
  induction b with
  | nil =>
    simp [firstClose, isPre, isPre_self_append]
  | cons x b ih =>
    have hx : x ≠ '<' := hb x (List.mem_cons_self x b)
    have hb' : NoLt b := fun a ha => hb a (List.mem_cons_of_mem x ha)
    simp only [List.cons_append, List.append_eq] at ih ⊢
    rw [firstClose, if_neg, ih hb']
    · rfl
    · rw [isPre_head_ne _ _ (Ne.symm hx)]; simp

theorem removeAllF_nil (o c : List Char) (n : Nat) : removeAllF o c n [] = [] := by
  cases n <;> rfl

theorem removeAllF_fuel (o c : List Char) (ho : o ≠ []) :
    ∀ n m s, s.length ≤ n → s.length ≤ m →
      removeAllF o c n s = removeAllF o c m s := by
  intro n
  induction n with
  | zero =>
    intro m s hn _
    rw [List.length_eq_zero.mp (Nat.le_zero.mp hn), removeAllF_nil, removeAllF_nil]
  | succ n ih =>
    intro m s hn hm
    cases s with
    | nil => rw [removeAllF_nil, removeAllF_nil]
    | cons x xs =>
      cases m with
      | zero => simp at hm
      | succ m' =>
        have hxn : xs.length ≤ n := by simpa using hn
        have hxm : xs.length ≤ m' := by simpa using hm
        have holen : 1 ≤ o.length := by
          cases o with
          | nil => exact absurd rfl ho
          | cons a os => simp
        simp only [removeAllF]
        split
        · split
          · rename_i k _
            have hdl : ((x :: xs).drop (o.length + k + c.length)).length ≤ xs.length := by
              simp only [List.length_drop, List.length_cons]
              omega
            exact ih m' _ (le_trans hdl hxn) (le_trans hdl hxm)
          · rw [ih m' xs hxn hxm]
        · rw [ih m' xs hxn hxm]

theorem removeAll_cons_neg (o c : List Char) (x : Char) (xs : List Char)
    (h : isPre o (x :: xs) = false) :
    removeAll o c (x :: xs) = x :: removeAll o c xs := by
  show removeAllF o c (x :: xs).length (x :: xs) = x :: removeAll o c xs
  rw [List.length_cons]
  simp only [removeAllF, h, Bool.false_eq_true, if_false]
  rfl

theorem removeAll_cons_pos (o c : List Char) (x : Char) (xs : List Char) (k : Nat)
    (ho : o ≠ []) (h : isPre o (x :: xs) = true)
    (hf : firstClose c ((x :: xs).drop o.length) = some k) :
    removeAll o c (x :: xs) = removeAll o c ((x :: xs).drop (o.length + k + c.length)) := by
  have holen : 1 ≤ o.length := by
    cases o with
    | nil => exact absurd rfl ho
    | cons a os => simp
  show removeAllF o c (x :: xs).length (x :: xs) = _
  rw [List.length_cons]
  simp only [removeAllF, h, if_true, hf]
  apply removeAllF_fuel o c ho
  · simp only [List.length_drop, List.length_cons]; omega
  · exact le_refl _

theorem isPre_refl (a : List Char) : isPre a a = true := by
  have := isPre_self_append a []
  rwa [List.append_nil] at this

theorem head_eq_of_head? {o : List Char} (ho : o.head? = some '<') :
    ∃ o', o = '<' :: o' := by
  cases o with
  | nil => simp at ho
  | cons a o' => simp at ho; exact ⟨o', by rw [ho]⟩

/-- The scanner of pass 1 copies a `<`-free run unchanged. -/
theorem removeAll_append_vis (o c s t : List Char)
    (ho : o.head? = some '<') (hs : NoLt s) :
    removeAll o c (s ++ t) = s ++ removeAll o c t := by
  obtain ⟨o', rfl⟩ := head_eq_of_head? ho
  induction s with
  | nil => simp
  | cons x s ih =>
    have hx : x ≠ '<' := hs x (List.mem_cons_self x s)
    have hs' : NoLt s := fun a ha => hs a (List.mem_cons_of_mem x ha)
    rw [List.cons_append,
      removeAll_cons_neg _ c x (s ++ t) (isPre_head_ne _ _ (Ne.symm hx)),
      ih hs', List.cons_append]

/-- The scanner of pass 1 removes a closed tag span whose body is `<`-free
and continues after it. -/
theorem removeAll_append_closed (o c b t : List Char)
    (ho : o.head? = some '<') (hc : c.head? = some '<') (hb : NoLt b) :
    removeAll o c (o ++ (b ++ (c ++ t))) = removeAll o c t := by
  obtain ⟨o', rfl⟩ := head_eq_of_head? ho
  rw [List.cons_append,
    removeAll_cons_pos ('<' :: o') c '<' (o' ++ (b ++ (c ++ t))) b.length
      (by simp) ?hpre ?hfc]
  case hpre =>
    have h2 : '<' :: (o' ++ (b ++ (c ++ t))) = ('<' :: o') ++ (b ++ (c ++ t)) := rfl
    rw [h2, isPre_append_left _ _ _ (le_refl _), isPre_refl]
  case hfc =>
    have h2 : ('<' :: (o' ++ (b ++ (c ++ t)))).drop ('<' :: o').length
        = b ++ (c ++ t) := by
      have h3 : '<' :: (o' ++ (b ++ (c ++ t))) = ('<' :: o') ++ (b ++ (c ++ t)) := rfl
      rw [h3, List.drop_left]
    rw [h2, firstClose_body c b t hc hb]
  have h4 : ('<' :: (o' ++ (b ++ (c ++ t)))).drop (('<' :: o').length + b.length + c.length)
      = t := by
    have h5 : '<' :: (o' ++ (b ++ (c ++ t))) = (('<' :: o') ++ b ++ c) ++ t := by
      simp
    rw [h5, List.drop_left' (by simp; omega)]
  rw [h4]

/-- The scanner of pass 1 walks through a closed span of a *different* tag
unchanged: the opening literal matches at neither of the two `<` positions,
and everything else is `<`-free. -/
theorem removeAll_append_tag (o c oB' cB' b t : List Char)
    (ho : o.head? = some '<')
    (h1 : isPre o ('<' :: oB') = false) (h2 : isPre o ('<' :: cB') = false)
    (hlen1 : o.length ≤ ('<' :: oB').length) (hlen2 : o.length ≤ ('<' :: cB').length)
    (hB : NoLt oB') (hcB : NoLt cB') (hb : NoLt b) :
    removeAll o c (('<' :: oB') ++ (b ++ (('<' :: cB') ++ t)))
      = ('<' :: oB') ++ (b ++ (('<' :: cB') ++ removeAll o c t)) := by
  have hp1 : isPre o ('<' :: (oB' ++ (b ++ ('<' :: (cB' ++ t))))) = false := by
    have hsh : '<' :: (oB' ++ (b ++ ('<' :: (cB' ++ t))))
        = ('<' :: oB') ++ (b ++ (('<' :: cB') ++ t)) := by simp
    rw [hsh, isPre_append_left _ _ _ hlen1, h1]
  have hp2 : isPre o ('<' :: (cB' ++ t)) = false := by
    have hsh : '<' :: (cB' ++ t) = ('<' :: cB') ++ t := rfl
    rw [hsh, isPre_append_left _ _ _ hlen2, h2]
  calc removeAll o c (('<' :: oB') ++ (b ++ (('<' :: cB') ++ t)))
      = removeAll o c ('<' :: (oB' ++ (b ++ ('<' :: (cB' ++ t))))) := by simp
    _ = '<' :: removeAll o c (oB' ++ (b ++ ('<' :: (cB' ++ t)))) :=
        removeAll_cons_neg o c _ _ hp1
    _ = '<' :: (oB' ++ removeAll o c (b ++ ('<' :: (cB' ++ t)))) := by
        rw [removeAll_append_vis o c oB' _ ho hB]
    _ = '<' :: (oB' ++ (b ++ removeAll o c ('<' :: (cB' ++ t)))) := by
        rw [removeAll_append_vis o c b _ ho hb]
    _ = '<' :: (oB' ++ (b ++ ('<' :: removeAll o c (cB' ++ t)))) := by
        rw [removeAll_cons_neg o c _ _ hp2]
    _ = '<' :: (oB' ++ (b ++ ('<' :: (cB' ++ removeAll o c t)))) := by
        rw [removeAll_append_vis o c cB' t ho hcB]
    _ = ('<' :: oB') ++ (b ++ (('<' :: cB') ++ removeAll o c t)) := by simp

/-! ## Pass 1 over well-formed inputs -/

theorem renderAll_nil : renderAll [] = [] := rfl

theorem renderAll_cons (g : Seg) (l : List Seg) :
    renderAll (g :: l) = g.render ++ renderAll l := by
  simp [renderAll]

theorem SegsOk_of_cons {g : Seg} {l : List Seg} (h : SegsOk (g :: l)) :
    NoLt g.txt ∧ SegsOk l :=
  ⟨h g (List.mem_cons_self g l), fun x hx => h x (List.mem_cons_of_mem g hx)⟩

theorem thinkO_head : thinkO.head? = some '<' := rfl
theorem thinkC_head : thinkC.head? = some '<' := rfl
theorem thinkingO_head : thinkingO.head? = some '<' := rfl
theorem thinkingC_head : thinkingC.head? = some '<' := rfl
theorem reasoningO_head : reasoningO.head? = some '<' := rfl
theorem reasoningC_head : reasoningC.head? = some '<' := rfl

theorem removeAll_render_think (l : List Seg) (h : SegsOk l) :
    removeAll thinkO thinkC (renderAll l)
      = renderAll (l.filter (fun g => !g.isThink)) := by
  induction l with
  | nil => rfl
  | cons g rest ih =>
    obtain ⟨hg, hrest⟩ := SegsOk_of_cons h
    cases g with
    | vis s =>
      simp only [Seg.txt] at hg
      rw [renderAll_cons]
      simp only [Seg.render]
      rw [removeAll_append_vis thinkO thinkC s _ thinkO_head hg, ih hrest]
      simp [Seg.isThink, renderAll_cons, Seg.render]
    | think b =>
      simp only [Seg.txt] at hg
      rw [renderAll_cons]
      have hsh : Seg.render (.think b) ++ renderAll rest
          = thinkO ++ (b ++ (thinkC ++ renderAll rest)) := by
        simp [Seg.render]
      rw [hsh,
        removeAll_append_closed thinkO thinkC b _ thinkO_head thinkC_head hg,
        ih hrest]
      simp [Seg.isThink]
    | thinking b =>
      simp only [Seg.txt] at hg
      rw [renderAll_cons]
      have hsh : Seg.render (.thinking b) ++ renderAll rest
          = ('<' :: "thinking>".data) ++
              (b ++ (('<' :: "/thinking>".data) ++ renderAll rest)) := by
        simp [Seg.render, thinkingO, thinkingC]
      rw [hsh,
        removeAll_append_tag thinkO thinkC "thinking>".data "/thinking>".data b
          (renderAll rest) thinkO_head (by decide) (by decide) (by decide)
          (by decide) (by decide) (by decide) hg,
        ih hrest]
      simp [Seg.isThink, renderAll_cons, Seg.render, thinkingO, thinkingC]
    | reasoning b =>
      simp only [Seg.txt] at hg
      rw [renderAll_cons]
      have hsh : Seg.render (.reasoning b) ++ renderAll rest
          = ('<' :: "reasoning>".data) ++
              (b ++ (('<' :: "/reasoning>".data) ++ renderAll rest)) := by
        simp [Seg.render, reasoningO, reasoningC]
      rw [hsh,
        removeAll_append_tag thinkO thinkC "reasoning>".data "/reasoning>".data b
          (renderAll rest) thinkO_head (by decide) (by decide) (by decide)
          (by decide) (by decide) (by decide) hg,
        ih hrest]
      simp [Seg.isThink, renderAll_cons, Seg.render, reasoningO, reasoningC]

theorem removeAll_render_thinking (l : List Seg) (h : SegsOk l)
    (hnt : ∀ g ∈ l, g.isThink = false) :
    removeAll thinkingO thinkingC (renderAll l)
      = renderAll (l.filter (fun g => !g.isThinking)) := by
  induction l with
  | nil => rfl
  | cons g rest ih =>
    obtain ⟨hg, hrest⟩ := SegsOk_of_cons h
    have hnt' : ∀ g ∈ rest, g.isThink = false :=
      fun x hx => hnt x (List.mem_cons_of_mem g hx)
    cases g with
    | vis s =>
      simp only [Seg.txt] at hg
      rw [renderAll_cons]
      simp only [Seg.render]
      rw [removeAll_append_vis thinkingO thinkingC s _ thinkingO_head hg, ih hrest hnt']
      simp [Seg.isThinking, renderAll_cons, Seg.render]
    | think b =>
      exact absurd (hnt (.think b) (List.mem_cons_self _ _)) (by simp [Seg.isThink])
    | thinking b =>
      simp only [Seg.txt] at hg
      rw [renderAll_cons]
      have hsh : Seg.render (.thinking b) ++ renderAll rest
          = thinkingO ++ (b ++ (thinkingC ++ renderAll rest)) := by
        simp [Seg.render]
      rw [hsh,
        removeAll_append_closed thinkingO thinkingC b _ thinkingO_head thinkingC_head hg,
        ih hrest hnt']
      simp [Seg.isThinking]
    | reasoning b =>
      simp only [Seg.txt] at hg
      rw [renderAll_cons]
      have hsh : Seg.render (.reasoning b) ++ renderAll rest
          = ('<' :: "reasoning>".data) ++
              (b ++ (('<' :: "/reasoning>".data) ++ renderAll rest)) := by
        simp [Seg.render, reasoningO, reasoningC]
      rw [hsh,
        removeAll_append_tag thinkingO thinkingC "reasoning>".data "/reasoning>".data b
          (renderAll rest) thinkingO_head (by decide) (by decide) (by decide)
          (by decide) (by decide) (by decide) hg,
        ih hrest hnt']
      simp [Seg.isThinking, renderAll_cons, Seg.render, reasoningO, reasoningC]

theorem removeAll_render_reasoning (l : List Seg) (h : SegsOk l)
    (hnt : ∀ g ∈ l, g.isThink = false) (hng : ∀ g ∈ l, g.isThinking = false) :
    removeAll reasoningO reasoningC (renderAll l)
      = renderAll (l.filter Seg.isVis) := by
  induction l with
  | nil => rfl
  | cons g rest ih =>
    obtain ⟨hg, hrest⟩ := SegsOk_of_cons h
    have hnt' : ∀ g ∈ rest, g.isThink = false :=
      fun x hx => hnt x (List.mem_cons_of_mem g hx)
    have hng' : ∀ g ∈ rest, g.isThinking = false :=
      fun x hx => hng x (List.mem_cons_of_mem g hx)
    cases g with
    | vis s =>
      simp only [Seg.txt] at hg
      rw [renderAll_cons]
      simp only [Seg.render]
      rw [removeAll_append_vis reasoningO reasoningC s _ reasoningO_head hg,
        ih hrest hnt' hng']
      simp [Seg.isVis, renderAll_cons, Seg.render]
    | think b =>
      exact absurd (hnt (.think b) (List.mem_cons_self _ _)) (by simp [Seg.isThink])
    | thinking b =>
      exact absurd (hng (.thinking b) (List.mem_cons_self _ _)) (by simp [Seg.isThinking])
    | reasoning b =>
      simp only [Seg.txt] at hg
      rw [renderAll_cons]
      have hsh : Seg.render (.reasoning b) ++ renderAll rest
          = reasoningO ++ (b ++ (reasoningC ++ renderAll rest)) := by
        simp [Seg.render]
      rw [hsh,
        removeAll_append_closed reasoningO reasoningC b _ reasoningO_head
          reasoningC_head hg,
        ih hrest hnt' hng']
      simp [Seg.isVis]

/-! ## The remaining passes are the identity on `<`-free strings -/

theorem removeAll_of_noLt (o c s : List Char) (ho : o.head? = some '<')
    (hs : NoLt s) : removeAll o c s = s := by
  have h0 : removeAll o c [] = ([] : List Char) := rfl
  have := removeAll_append_vis o c s [] ho hs
  simpa [h0] using this

theorem markerLen?_cons_none (base : List Char) (x : Char) (xs : List Char)
    (hb : base.head? = some '<') (hx : x ≠ '<') :
    markerLen? base (x :: xs) = none := by
  obtain ⟨b', rfl⟩ := head_eq_of_head? hb
  rw [markerLen?, isPre_head_ne _ _ (Ne.symm hx)]
  simp

theorem removeTmplCloseF_of_noLt (c : List Char) :
    ∀ n s, s.length ≤ n → NoLt s → removeTmplCloseF c n s = s := by
  intro n
  induction n with
  | zero =>
    intro s hn _
    rw [List.length_eq_zero.mp (Nat.le_zero.mp hn)]; rfl
  | succ n ih =>
    intro s hn hs
    cases s with
    | nil => rfl
    | cons x xs =>
      have hx : x ≠ '<' := hs x (List.mem_cons_self x xs)
      have hs' : NoLt xs := fun a ha => hs a (List.mem_cons_of_mem x ha)
      simp only [removeTmplCloseF, markerLen?_cons_none imEndBase x xs rfl hx]
      rw [ih xs (by simpa using hn) hs']

theorem removeTmplClose_of_noLt (c s : List Char) (hs : NoLt s) :
    removeTmplClose c s = s :=
  removeTmplCloseF_of_noLt c s.length s (le_refl _) hs

theorem takeWhile_nonTag_eq_self (s : List Char) (hs : NoLt s) :
    s.takeWhile nonTagChar = s :=
  List.takeWhile_eq_self_iff.mpr (fun x hx => by simp [nonTagChar, hs x hx])

theorem gtMatchLen?_none_of_noLt (c s : List Char) (hc : c.head? = some '<')
    (hs : NoLt s) : gtMatchLen? c s = none := by
  obtain ⟨c', rfl⟩ := head_eq_of_head? hc
  rw [gtMatchLen?]
  simp only [takeWhile_nonTag_eq_self s hs, List.drop_length, isPre_nil_right]
  simp

theorem subGtF_of_noLt (c : List Char) (hc : c.head? = some '<') :
    ∀ n s, s.length ≤ n → NoLt s → subGtF c n s = s := by
  intro n
  induction n with
  | zero =>
    intro s hn _
    rw [List.length_eq_zero.mp (Nat.le_zero.mp hn)]; rfl
  | succ n ih =>
    intro s hn hs
    cases s with
    | nil => rfl
    | cons x xs =>
      have hs' : NoLt xs := fun a ha => hs a (List.mem_cons_of_mem x ha)
      have hxs := ih xs (by simpa using hn) hs'
      by_cases hgt : x = '>'
      · subst hgt
        simp only [subGtF, if_pos rfl, gtMatchLen?_none_of_noLt c xs hc hs', hxs]
        simp
      · simp only [subGtF, if_neg hgt, hxs]

theorem subGt_of_noLt (c s : List Char) (hc : c.head? = some '<') (hs : NoLt s) :
    subGt c s = s :=
  subGtF_of_noLt c hc s.length s (le_refl _) hs

theorem subStartClose_of_noLt (c s : List Char) (hc : c.head? = some '<')
    (hs : NoLt s) : subStartClose c s = s := by
  obtain ⟨c', rfl⟩ := head_eq_of_head? hc
  rw [subStartClose]
  simp only [takeWhile_nonTag_eq_self s hs, List.drop_length, isPre_nil_right]
  simp

theorem subOpenEnd_of_noLt (o s : List Char) (ho : o.head? = some '<')
    (hs : NoLt s) : subOpenEnd o s = s := by
  obtain ⟨o', rfl⟩ := head_eq_of_head? ho
  induction s with
  | nil => rfl
  | cons x xs ih =>
    have hx : x ≠ '<' := hs x (List.mem_cons_self x xs)
    have hs' : NoLt xs := fun a ha => hs a (List.mem_cons_of_mem x ha)
    rw [subOpenEnd, if_neg, ih hs']
    rw [isPre_head_ne _ _ (Ne.symm hx)]
    simp

theorem removeMarkerF_of_noLt (base : List Char) (hb : base.head? = some '<') :
    ∀ n s, s.length ≤ n → NoLt s → removeMarkerF base n s = s := by
  intro n
  induction n with
  | zero =>
    intro s hn _
    rw [List.length_eq_zero.mp (Nat.le_zero.mp hn)]; rfl
  | succ n ih =>
    intro s hn hs
    cases s with
    | nil => rfl
    | cons x xs =>
      have hx : x ≠ '<' := hs x (List.mem_cons_self x xs)
      have hs' : NoLt xs := fun a ha => hs a (List.mem_cons_of_mem x ha)
      simp only [removeMarkerF, markerLen?_cons_none base x xs hb hx]
      rw [ih xs (by simpa using hn) hs']

theorem removeMarker_of_noLt (base s : List Char) (hb : base.head? = some '<')
    (hs : NoLt s) : removeMarker base s = s :=
  removeMarkerF_of_noLt base hb s.length s (le_refl _) hs

/-! ## Properties of the blank-line collapsing pass and of `strip()` -/

/-- States that no run of three consecutive newlines occurs: what the collapsing pass
guarantees about its output. -/
def NoTriple (s : List Char) : Prop := ¬ ['\n', '\n', '\n'] <:+: s

theorem inf_of_pre {l r : List Char} (h : l <+: r) : l <:+: r := by
  obtain ⟨t, ht⟩ := h
  exact ⟨[], t, by simpa using ht⟩

theorem inf_of_suf {l r : List Char} (h : l <:+ r) : l <:+: r := by
  obtain ⟨s, hs⟩ := h
  exact ⟨s, [], by simpa using hs⟩

theorem prefix_cons_head? {a : Char} {l r : List Char} (h : (a :: l) <+: r) :
    r.head? = some a := by
  obtain ⟨t, ht⟩ := h
  rw [← ht]
  rfl

theorem pyCollapseF_nil (n : Nat) : pyCollapseF n [] = [] := by
  cases n <;> rfl

theorem pyCollapseF_head : ∀ n s, s.length ≤ n →
    (pyCollapseF n s).head? = s.head? := by
  intro n
  induction n with
  | zero =>
    intro s hn
    rw [List.length_eq_zero.mp (Nat.le_zero.mp hn)]
    rfl
  | succ n _ =>
    intro s hn
    cases s with
    | nil => rfl
    | cons x xs =>
      simp only [pyCollapseF]
      split
      · rename_i hcond
        simp only [Bool.and_eq_true, decide_eq_true_eq] at hcond
        simp [hcond.1]
      · simp

theorem head?_dropWhileNl_ne (l : List Char) (y : Char)
    (hy : (l.dropWhile isNl).head? = some y) : y ≠ '\n' := by
  have h := List.head?_dropWhile_not isNl l
  rw [hy] at h
  simpa [isNl] using h

/-- If the leading newline run of `xs` has length at most 1, the collapsed
`xs` cannot start with two newlines. -/
theorem two_nl_not_prefix_collapse (n : Nat) (xs : List Char)
    (hn : xs.length ≤ n) (hrun : (xs.takeWhile isNl).length ≤ 1) :
    ¬ (['\n', '\n'] <+: pyCollapseF n xs) := by
  cases xs with
  | nil => rw [pyCollapseF_nil]; intro h; simp at h
  | cons y ys =>
    cases n with
    | zero => simp at hn
    | succ n =>
      by_cases hy : y = '\n'
      · subst hy
        have hys : (ys.takeWhile isNl).length = 0 := by
          have hsh : ('\n' :: ys).takeWhile isNl = '\n' :: ys.takeWhile isNl := by
            simp [List.takeWhile_cons, isNl]
          rw [hsh] at hrun
          simpa using hrun
        have hC : pyCollapseF (n + 1) ('\n' :: ys) = '\n' :: pyCollapseF n ys := by
          simp [pyCollapseF, hys]
        intro hpre
        rw [hC] at hpre
        have h2 := (List.cons_prefix_cons.mp hpre).2
        have hhead := prefix_cons_head? h2
        rw [pyCollapseF_head n ys (by simpa using hn)] at hhead
        cases ys with
        | nil => simp at hhead
        | cons z zs =>
          by_cases hz : isNl z
          · have hsh : (z :: zs).takeWhile isNl = z :: zs.takeWhile isNl := by
              simp [List.takeWhile_cons, hz]
            rw [hsh] at hys
            simp at hys
          · simp only [List.head?_cons, Option.some_inj] at hhead
            rw [hhead] at hz
            exact hz (by simp [isNl])
      · intro hpre
        have hhead := prefix_cons_head? hpre
        rw [pyCollapseF_head (n + 1) (y :: ys) hn] at hhead
        simp only [List.head?_cons, Option.some_inj] at hhead
        exact hy hhead

theorem collapse_noTriple : ∀ n s, s.length ≤ n → NoTriple (pyCollapseF n s) := by
  intro n
  induction n with
  | zero =>
    intro s hn
    rw [List.length_eq_zero.mp (Nat.le_zero.mp hn), pyCollapseF_nil]
    intro h
    simp at h
  | succ n ih =>
    intro s hn
    cases s with
    | nil => rw [pyCollapseF_nil]; intro h; simp at h
    | cons x xs =>
      have hxslen : xs.length ≤ n := by simpa using hn
      simp only [pyCollapseF]
      split
      · rename_i hcond
        simp only [Bool.and_eq_true, decide_eq_true_eq] at hcond
        have hdlen : (xs.dropWhile isNl).length ≤ n :=
          le_trans (List.Sublist.length_le (List.dropWhile_sublist isNl)) hxslen
        have hC := ih (xs.dropWhile isNl) hdlen
        have hhead : ∀ y, (pyCollapseF n (xs.dropWhile isNl)).head? = some y →
            y ≠ '\n' := by
          intro y hy
          rw [pyCollapseF_head n _ hdlen] at hy
          exact head?_dropWhileNl_ne xs y hy
        intro htr
        rcases List.infix_cons_iff.mp htr with hpre | htr2
        · have h1 := (List.cons_prefix_cons.mp hpre).2
          have h2 := (List.cons_prefix_cons.mp h1).2
          exact (hhead '\n' (prefix_cons_head? h2)) rfl
        · rcases List.infix_cons_iff.mp htr2 with hpre2 | htr3
          · have h1 := (List.cons_prefix_cons.mp hpre2).2
            exact (hhead '\n' (prefix_cons_head? h1)) rfl
          · exact hC htr3
      · rename_i hcond
        have hC := ih xs hxslen
        intro htr
        rcases List.infix_cons_iff.mp htr with hpre | htr2
        · have hx := (List.cons_prefix_cons.mp hpre).1
          have h1 := (List.cons_prefix_cons.mp hpre).2
          have hrun : (xs.takeWhile isNl).length ≤ 1 := by
            by_contra hgt
            push_neg at hgt
            exact hcond (by simp [← hx]; omega)
          exact two_nl_not_prefix_collapse n xs hxslen hrun h1
        · exact hC htr2

theorem collapse_id : ∀ n s, s.length ≤ n → NoTriple s → pyCollapseF n s = s := by
  intro n
  induction n with
  | zero =>
    intro s hn _
    rw [List.length_eq_zero.mp (Nat.le_zero.mp hn), pyCollapseF_nil]
  | succ n ih =>
    intro s hn hs
    cases s with
    | nil => rfl
    | cons x xs =>
      have hxs : NoTriple xs := fun h => hs (List.infix_cons h)
      simp only [pyCollapseF]
      split
      · rename_i hcond
        exfalso
        simp only [Bool.and_eq_true, decide_eq_true_eq] at hcond
        obtain ⟨hx, hrun⟩ := hcond
        obtain ⟨t, ht⟩ : ∃ t, xs.takeWhile isNl = '\n' :: ('\n' :: t) := by
          cases h1 : xs.takeWhile isNl with
          | nil => rw [h1] at hrun; simp at hrun
          | cons a t1 =>
            cases t1 with
            | nil => rw [h1] at hrun; simp at hrun
            | cons b t2 =>
              have ha : isNl a := List.mem_takeWhile_imp
                (by rw [h1]; exact List.mem_cons_self a (b :: t2))
              have hbm : isNl b := List.mem_takeWhile_imp
                (by rw [h1]; exact List.mem_cons_of_mem a (List.mem_cons_self b t2))
              simp only [isNl, decide_eq_true_eq] at ha hbm
              subst ha
              subst hbm
              exact ⟨t2, rfl⟩
        have hpre : ['\n', '\n'] <+: xs := by
          have htw : xs.takeWhile isNl <+: xs := List.takeWhile_prefix isNl
          rw [ht] at htw
          exact List.IsPrefix.trans ⟨t, rfl⟩ htw
        apply hs
        obtain ⟨r, hr⟩ := hpre
        subst hx
        refine inf_of_pre ⟨r, ?_⟩
        simpa using congrArg (List.cons '\n') hr
      · rw [ih xs (by simpa using hn) hxs]

theorem mem_pyCollapseF : ∀ n s (a : Char), a ∈ pyCollapseF n s →
    a ∈ s ∨ a = '\n' := by
  intro n
  induction n with
  | zero =>
    intro s a ha
    cases s with
    | nil => rw [pyCollapseF_nil] at ha; simp at ha
    | cons x xs => exact Or.inl ha
  | succ n ih =>
    intro s a ha
    cases s with
    | nil => rw [pyCollapseF_nil] at ha; simp at ha
    | cons x xs =>
      simp only [pyCollapseF] at ha
      split at ha
      · rcases List.mem_cons.mp ha with h1 | h1
        · exact Or.inr h1
        rcases List.mem_cons.mp h1 with h2 | h2
        · exact Or.inr h2
        rcases ih _ a h2 with h3 | h3
        · exact Or.inl (List.mem_cons_of_mem x
            (List.Sublist.mem h3 (List.dropWhile_sublist isNl)))
        · exact Or.inr h3
      · rcases List.mem_cons.mp ha with h1 | h1
        · exact Or.inl (h1 ▸ List.mem_cons_self x xs)
        rcases ih _ a h1 with h3 | h3
        · exact Or.inl (List.mem_cons_of_mem x h3)
        · exact Or.inr h3

theorem dropWhile_dropWhile (p : Char → Bool) (l : List Char) :
    (l.dropWhile p).dropWhile p = l.dropWhile p := by
  cases h : l.dropWhile p with
  | nil => rfl
  | cons y ys =>
    have hy : p y = false := by
      have hh := List.head?_dropWhile_not p l
      rw [h] at hh
      simpa using hh
    simp [List.dropWhile_cons, hy]

theorem pyRStrip_pre (s : List Char) : pyRStrip s <+: s := by
  rw [pyRStrip]
  apply List.reverse_suffix.mp
  rw [List.reverse_reverse]
  exact List.dropWhile_suffix pyWs

theorem pyLStrip_suf (s : List Char) : pyLStrip s <:+ s :=
  List.dropWhile_suffix pyWs

theorem pyStrip_inf (s : List Char) : pyStrip s <:+: s :=
  List.IsInfix.trans (inf_of_pre (pyRStrip_pre (pyLStrip s)))
    (inf_of_suf (pyLStrip_suf s))

theorem pyRStrip_idem (s : List Char) : pyRStrip (pyRStrip s) = pyRStrip s := by
  rw [pyRStrip, pyRStrip, List.reverse_reverse, dropWhile_dropWhile]

theorem pyLStrip_idem (s : List Char) : pyLStrip (pyLStrip s) = pyLStrip s := by
  rw [pyLStrip, pyLStrip, dropWhile_dropWhile]

theorem pyLStrip_pyRStrip_pyLStrip (s : List Char) :
    pyLStrip (pyRStrip (pyLStrip s)) = pyRStrip (pyLStrip s) := by
  cases h : pyRStrip (pyLStrip s) with
  | nil => rfl
  | cons z zs =>
    have hz : (pyLStrip s).head? = some z :=
      prefix_cons_head? (h ▸ pyRStrip_pre (pyLStrip s))
    have hzw : pyWs z = false := by
      have hh := List.head?_dropWhile_not pyWs s
      rw [show s.dropWhile pyWs = pyLStrip s from rfl, hz] at hh
      simpa using hh
    rw [pyLStrip, List.dropWhile_cons]
    simp [hzw]

theorem pyStrip_idem (s : List Char) : pyStrip (pyStrip s) = pyStrip s := by
  rw [pyStrip, pyStrip, pyLStrip_pyRStrip_pyLStrip, pyRStrip_idem]

/-! ## Transfer of `NoLt` and `NoTriple` along the final passes -/

theorem NoLt_of_inf {t s : List Char} (hi : t <:+: s) (hs : NoLt s) : NoLt t :=
  fun a ha => hs a (hi.subset ha)

theorem NoTriple_of_inf {t s : List Char} (hi : t <:+: s) (hs : NoTriple s) :
    NoTriple t :=
  fun h => hs (h.trans hi)

theorem NoLt_pyCollapse {s : List Char} (hs : NoLt s) : NoLt (pyCollapse s) := by
  intro a ha
  rcases mem_pyCollapseF s.length s a ha with h | h
  · exact hs a h
  · rw [h]; decide

theorem NoTriple_pyCollapse (s : List Char) : NoTriple (pyCollapse s) :=
  collapse_noTriple s.length s (le_refl _)

theorem NoLt_pyStrip {s : List Char} (hs : NoLt s) : NoLt (pyStrip s) :=
  NoLt_of_inf (pyStrip_inf s) hs

theorem NoTriple_pyStrip {s : List Char} (hs : NoTriple s) : NoTriple (pyStrip s) :=
  NoTriple_of_inf (pyStrip_inf s) hs

theorem NoLt_renderAll_vis (l : List Seg) (h : SegsOk l) : NoLt (visConcat l) := by
  intro a ha
  rw [visConcat, renderAll, List.mem_flatten] at ha
  obtain ⟨m, hm, ham⟩ := ha
  rw [List.mem_map] at hm
  obtain ⟨g, hgmem, hrend⟩ := hm
  have hvis := (List.mem_filter.mp hgmem).2
  have hok := h g (List.mem_of_mem_filter hgmem)
  cases g with
  | vis s =>
    rw [← hrend] at ham
    exact hok a (by simpa [Seg.render, Seg.txt] using ham)
  | think b => simp [Seg.isVis] at hvis
  | thinking b => simp [Seg.isVis] at hvis
  | reasoning b => simp [Seg.isVis] at hvis

/-- On a well-formed input, `filter_think_content` removes exactly the tag
spans: the result is the collapsed, stripped concatenation of the visible
runs. -/
theorem filter_render (l : List Seg) (h : SegsOk l) :
    filter_think_content (renderAll l) = pyStrip (pyCollapse (visConcat l)) := by
  have hv : NoLt (visConcat l) := NoLt_renderAll_vis l h
  have h1 := removeAll_render_think l h
  have hok1 : SegsOk (l.filter (fun g => !g.isThink)) :=
    fun g hg => h g (List.mem_of_mem_filter hg)
  have hnt1 : ∀ g ∈ l.filter (fun g => !g.isThink), g.isThink = false :=
    fun g hg => by have := (List.mem_filter.mp hg).2; simpa using this
  have h2 := removeAll_render_thinking _ hok1 hnt1
  have hok2 : SegsOk ((l.filter (fun g => !g.isThink)).filter (fun g => !g.isThinking)) :=
    fun g hg => hok1 g (List.mem_of_mem_filter hg)
  have hnt2 : ∀ g ∈ (l.filter (fun g => !g.isThink)).filter (fun g => !g.isThinking),
      g.isThink = false :=
    fun g hg => hnt1 g (List.mem_of_mem_filter hg)
  have hng2 : ∀ g ∈ (l.filter (fun g => !g.isThink)).filter (fun g => !g.isThinking),
      g.isThinking = false :=
    fun g hg => by have := (List.mem_filter.mp hg).2; simpa using this
  have h3 := removeAll_render_reasoning _ hok2 hnt2 hng2
  have hfin : renderAll
      (((l.filter (fun g => !g.isThink)).filter (fun g => !g.isThinking)).filter Seg.isVis)
      = visConcat l := by
    rw [List.filter_filter, List.filter_filter, visConcat]
    congr 1
    apply List.filter_congr
    intro g _
    cases g <;> rfl
  simp only [filter_think_content]
  rw [h1, h2, h3, hfin,
    removeTmplClose_of_noLt thinkC _ hv,
    removeTmplClose_of_noLt thinkingC _ hv,
    removeTmplClose_of_noLt reasoningC _ hv,
    subGt_of_noLt thinkC _ thinkC_head hv,
    subGt_of_noLt thinkingC _ thinkingC_head hv,
    subGt_of_noLt reasoningC _ reasoningC_head hv,
    subStartClose_of_noLt thinkC _ thinkC_head hv,
    subStartClose_of_noLt thinkingC _ thinkingC_head hv,
    subStartClose_of_noLt reasoningC _ reasoningC_head hv,
    subOpenEnd_of_noLt thinkO _ thinkO_head hv,
    subOpenEnd_of_noLt thinkingO _ thinkingO_head hv,
    subOpenEnd_of_noLt reasoningO _ reasoningO_head hv,
    removeMarker_of_noLt imEndBase _ rfl hv,
    removeMarker_of_noLt imStartBase _ rfl hv]

/-- On a `<`-free string every tag pass is the identity, so
`filter_think_content` only collapses blank lines and strips. -/
theorem filter_of_noLt (s : List Char) (hs : NoLt s) :
    filter_think_content s = pyStrip (pyCollapse s) := by
  simp only [filter_think_content]
  rw [removeAll_of_noLt thinkO thinkC _ thinkO_head hs,
    removeAll_of_noLt thinkingO thinkingC _ thinkingO_head hs,
    removeAll_of_noLt reasoningO reasoningC _ reasoningO_head hs,
    removeTmplClose_of_noLt thinkC _ hs,
    removeTmplClose_of_noLt thinkingC _ hs,
    removeTmplClose_of_noLt reasoningC _ hs,
    subGt_of_noLt thinkC _ thinkC_head hs,
    subGt_of_noLt thinkingC _ thinkingC_head hs,
    subGt_of_noLt reasoningC _ reasoningC_head hs,
    subStartClose_of_noLt thinkC _ thinkC_head hs,
    subStartClose_of_noLt thinkingC _ thinkingC_head hs,
    subStartClose_of_noLt reasoningC _ reasoningC_head hs,
    subOpenEnd_of_noLt thinkO _ thinkO_head hs,
    subOpenEnd_of_noLt thinkingO _ thinkingO_head hs,
    subOpenEnd_of_noLt reasoningO _ reasoningO_head hs,
    removeMarker_of_noLt imEndBase _ rfl hs,
    removeMarker_of_noLt imStartBase _ rfl hs]

/-! ## C1 — amended. -/

/-- C1, amended: for every well-formed input (an alternation of `<`-free
visible runs and fully-closed `think`/`thinking`/`reasoning` spans with
`<`-free bodies), the visible output of the extraction is exactly the
collapsed and stripped concatenation of the visible runs — it contains no
`<` and none of the six tag delimiters, and in particular none of the
interior reasoning spans survive.  For the scenario's accumulated text the
visible text is `"hello"`, and the extracted reasoning text is
`"secret\nsecret"` (the source collects the segment twice), not `"secret"`. -/
theorem C1_amended_extraction (l : List Seg) (h : SegsOk l) :
    filter_think_content (renderAll l) = pyStrip (pyCollapse (visConcat l)) ∧
    NoLt (filter_think_content (renderAll l)) ∧
    (∀ d ∈ [thinkO, thinkC, thinkingO, thinkingC, reasoningO, reasoningC],
      ¬ d <:+: filter_think_content (renderAll l)) ∧
    extract_think_content c1Text
      = (("secret" ++ "\n" ++ "secret").data, "hello".data) := by
  have heq := filter_render l h
  have hlt : NoLt (filter_think_content (renderAll l)) := by
    rw [heq]
    exact NoLt_pyStrip (NoLt_pyCollapse (NoLt_renderAll_vis l h))
  refine ⟨heq, hlt, ?_, by decide⟩
  intro d hd hinf
  have hmem : '<' ∈ d := by
    simp only [List.mem_cons, List.not_mem_nil, or_false] at hd
    rcases hd with rfl | rfl | rfl | rfl | rfl | rfl <;> decide
  exact (hlt '<' (hinf.subset hmem)) rfl

/-- Witness for `C1_amended_extraction`. -/
theorem C1_amended_witness :
    filter_think_content (renderAll [Seg.vis "A".data, Seg.think "B".data])
      = pyStrip (pyCollapse (visConcat [Seg.vis "A".data, Seg.think "B".data])) ∧
    NoLt (filter_think_content (renderAll [Seg.vis "A".data, Seg.think "B".data])) ∧
    (∀ d ∈ [thinkO, thinkC, thinkingO, thinkingC, reasoningO, reasoningC],
      ¬ d <:+: filter_think_content (renderAll [Seg.vis "A".data, Seg.think "B".data])) ∧
    extract_think_content c1Text
      = (("secret" ++ "\n" ++ "secret").data, "hello".data) :=
  C1_amended_extraction [Seg.vis "A".data, Seg.think "B".data] (by decide)

/-! ## C2 — confirmed. -/

/-- C2: on every well-formed input (zero or more fully-closed reasoning
tags interleaved with `<`-free visible runs) the visible-text extraction is
idempotent, and its output never contains a run of three or more
consecutive newlines. -/
theorem C2_extraction_idempotent (l : List Seg) (h : SegsOk l) :
    filter_think_content (filter_think_content (renderAll l))
      = filter_think_content (renderAll l) ∧
    NoTriple (filter_think_content (renderAll l)) := by
  have heq := filter_render l h
  have hv : NoLt (visConcat l) := NoLt_renderAll_vis l h
  have hwlt : NoLt (pyStrip (pyCollapse (visConcat l))) :=
    NoLt_pyStrip (NoLt_pyCollapse hv)
  have hwtr : NoTriple (pyStrip (pyCollapse (visConcat l))) :=
    NoTriple_pyStrip (NoTriple_pyCollapse (visConcat l))
  constructor
  · rw [heq, filter_of_noLt _ hwlt]
    rw [show pyCollapse (pyStrip (pyCollapse (visConcat l)))
        = pyStrip (pyCollapse (visConcat l)) from
      collapse_id _ _ (le_refl _) hwtr]
    rw [pyStrip_idem]
  · rw [heq]
    exact hwtr

/-- Witness for `C2_extraction_idempotent`. -/
theorem C2_witness :
    filter_think_content (filter_think_content
        (renderAll [Seg.vis "A\n\n\n\n".data, Seg.reasoning "R".data, Seg.vis "B".data]))
      = filter_think_content
          (renderAll [Seg.vis "A\n\n\n\n".data, Seg.reasoning "R".data, Seg.vis "B".data]) ∧
    NoTriple (filter_think_content
        (renderAll [Seg.vis "A\n\n\n\n".data, Seg.reasoning "R".data, Seg.vis "B".data])) :=
  C2_extraction_idempotent
    [Seg.vis "A\n\n\n\n".data, Seg.reasoning "R".data, Seg.vis "B".data] (by decide)
end ChatDb
